import Mathlib

/-!
Verification of the cross-entropy loss family in
`src/byprot/modules/cross_entropy.py` and of the PDB alpha-carbon reader
in `debug.py`.

Modelling conventions
  - A tensor of floats is embedded as (nested) lists over `ℚ`: a class-score
    vector (last dimension, size `C`) is a `Vec := List ℚ`, an `[N, L]`
    tensor is a `Mat := List (List ℚ)`, and an `[N, L, C]` tensor is a
    `List (List Vec)`.  Shape facts (equal lengths, rows of length `C`)
    become hypotheses of the theorems.
  - `F.log_softmax` and `torch.exp` are transcendental on floats; the claims
    under verification never depend on their values, so they are passed to
    the embedded functions as abstract arguments `logSoftmax : Vec → Vec`
    and `rexp : ℚ → ℚ`.
  - Python code that dereferences a possibly-`None` value, unpacks
    `Tensor.chunk(2)`, or iterates an empty dict can raise; such functions
    are embedded with result type `Option _`, where `none` is the raise.
  - `ignore_index` is an `Option ℤ` and targets are `ℤ` (the library default
    ignore index is the negative number -100).
-/

abbrev Vec := List ℚ
abbrev Mat := List (List ℚ)

/-- Sum of all entries of an `[N, L]` tensor (`Tensor.sum()`). -/
def matSum (m : Mat) : ℚ := (m.map List.sum).sum

/-- Elementwise product of two `[N, L]` tensors (`a * b`). -/
def matHadamard (a b : Mat) : Mat :=
  List.zipWith (fun r s => List.zipWith (fun x y => x * y) r s) a b

/-- `Tensor.numel()` of an `[N, L]` tensor given as nested lists. -/
def matNumel (m : List (List ℤ)) : ℕ := (m.map List.length).sum

/-- `-lprobs.gather(dim=-1, index=target)` at one position: the negated
entry of the class vector at the target index. -/
def gatherNeg (row : Vec) (t : ℤ) : ℚ := -(row.getD t.toNat 0)

/-- `masked_fill_(target.eq(ignore_index), 0.0)` at one position: zero the
value when the target equals the ignore index, keep it otherwise. -/
def maskedAt (ignoreIndex : Option ℤ) (t : ℤ) (x : ℚ) : ℚ :=
  match ignoreIndex with
  | none => x
  | some ig => if t = ig then 0 else x

/-- Smoothing coefficient `eps_i = epsilon / (lprobs.size(-1) - 1)` of
`label_smoothed_nll_loss`, with `C = lprobs.size(-1)`. -/
def epsI (epsilon : ℚ) (C : ℕ) : ℚ := epsilon / ((C : ℚ) - 1)

/-- Per-position `nll_loss` terms of `label_smoothed_nll_loss` after the
`masked_fill_` step: gather, negate, zero out ignored positions. -/
def nllTerms (ignoreIndex : Option ℤ) (lprobs : List Vec) (target : List ℤ) :
    List ℚ :=
  (lprobs.zip target).map (fun p => maskedAt ignoreIndex p.2 (gatherNeg p.1 p.2))

/-- Per-position `smooth_loss` terms of `label_smoothed_nll_loss` after the
`masked_fill_` step: `-lprobs.sum(dim=-1)`, zeroed at ignored positions. -/
def smoothTerms (ignoreIndex : Option ℤ) (lprobs : List Vec) (target : List ℤ) :
    List ℚ :=
  (lprobs.zip target).map (fun p => maskedAt ignoreIndex p.2 (-(p.1.sum)))

/-- `label_smoothed_nll_loss(lprobs, target, epsilon, ignore_index,
reduce=True)` from `cross_entropy.py`, instantiated at a flat position list
(`lprobs : [P, C]`, `target : [P]`, the shape at which
`CrossEntropyLoss.forward` calls it after `reshape`).  Returns
`(loss, nll_loss)`. -/
def label_smoothed_nll_loss (C : ℕ) (lprobs : List Vec) (target : List ℤ)
    (epsilon : ℚ) (ignoreIndex : Option ℤ) : ℚ × ℚ :=
  let nll_loss := (nllTerms ignoreIndex lprobs target).sum
  let smooth_loss := (smoothTerms ignoreIndex lprobs target).sum
  let ei := epsI epsilon C
  ((1 - epsilon - ei) * nll_loss + ei * smooth_loss, nll_loss)

/-- `label_smoothed_nll_loss(..., reduce=False)` instantiated at
`lprobs : [N, L, C]`, `target : [N, L]` (the shape at which the
`Coord2Seq`/`RDM`/`StructAARDM` losses call it).  Returns the `[N, L]`
tensors `(loss, nll_loss)`; all operations are elementwise so they act
row by row. -/
def label_smoothed_nll_loss2 (C : ℕ) (lprobs : List (List Vec))
    (target : List (List ℤ)) (epsilon : ℚ) (ignoreIndex : Option ℤ) :
    Mat × Mat :=
  let nll_loss := List.zipWith (fun lrow trow => nllTerms ignoreIndex lrow trow)
    lprobs target
  let smooth_loss := List.zipWith
    (fun lrow trow => smoothTerms ignoreIndex lrow trow) lprobs target
  let ei := epsI epsilon C
  (List.zipWith (fun nrow srow => List.zipWith
      (fun n s => (1 - epsilon - ei) * n + ei * s) nrow srow)
    nll_loss smooth_loss,
   nll_loss)

section SumLemmas

/-- A list sum written as an indexed sum over `Finset.range`. -/
theorem list_sum_eq_range_sum (xs : List ℚ) :
    xs.sum = ∑ i in Finset.range xs.length, xs.getD i 0 := by
  induction xs with
  | nil => simp
  | cons a as ih =>
    rw [List.sum_cons, List.length_cons, Finset.sum_range_succ']
    simp [ih, add_comm]

/-- Summing a function mapped over a zip of equal-length lists equals the
indexed sum of the function at the `getD` entries. -/
theorem zip_map_sum_eq_range_sum (f : Vec × ℤ → ℚ) (lp : List Vec)
    (tg : List ℤ) (h : tg.length = lp.length) :
    ((lp.zip tg).map f).sum
      = ∑ i in Finset.range lp.length, f (lp.getD i [], tg.getD i 0) := by
  induction lp generalizing tg with
  | nil => simp
  | cons a as ih =>
    cases tg with
    | nil => simp at h
    | cons b bs =>
      simp only [List.length_cons, Nat.succ_inj] at h
      rw [List.zip_cons_cons, List.map_cons, List.sum_cons, List.length_cons,
        Finset.sum_range_succ']
      simp only [List.getD_cons_succ, List.getD_cons_zero]
      rw [ih bs h, add_comm]

/-- A sum of if-then-else-zero terms equals the sum over the filtered list. -/
theorem sum_map_ite_eq_filter_sum (l : List (Vec × ℤ)) (p : Vec × ℤ → Prop)
    [DecidablePred p] (g : Vec × ℤ → ℚ) :
    (l.map (fun x => if p x then g x else 0)).sum
      = ((l.filter (fun x => decide (p x))).map g).sum := by
  induction l with
  | nil => simp
  | cons a as ih =>
    by_cases hp : p a
    · simp [hp, ih]
    · simp [hp, ih]

end SumLemmas

theorem epsI_zero (C : ℕ) : epsI 0 C = 0 := zero_div _

theorem nllTerms_length (ig : Option ℤ) (lp : List Vec) (tg : List ℤ) :
    (nllTerms ig lp tg).length = min lp.length tg.length := by
  simp [nllTerms]

theorem smoothTerms_length (ig : Option ℤ) (lp : List Vec) (tg : List ℤ) :
    (smoothTerms ig lp tg).length = min lp.length tg.length := by
  simp [smoothTerms]

theorem zipWith_left_proj {α β : Type} (f : α → β → α) (hf : ∀ a b, f a b = a)
    (as : List α) (bs : List β) (h : as.length ≤ bs.length) :
    List.zipWith f as bs = as := by
  induction as generalizing bs with
  | nil => simp
  | cons a as ih =>
    cases bs with
    | nil => simp at h
    | cons b bs =>
      simp only [List.length_cons, Nat.succ_le_succ_iff] at h
      simp [hf, ih bs h]

/-- C1: with no ignore index and `C ≥ 2` classes, `label_smoothed_nll_loss`
with `reduce=True` returns `nll_loss = Σ_i -lprobs[i][target[i]]` and
`loss = (1 - ε - ε/(C-1)) * nll_loss + (ε/(C-1)) * smooth_loss` with
`smooth_loss = Σ_i -(Σ_j lprobs[i][j])`, the sums over all positions and the
inner sum over the class dimension. -/
theorem C1_label_smoothed_nll_loss_formula (C : ℕ) (lp : List Vec)
    (tg : List ℤ) (ε : ℚ) (hC : 2 ≤ C) (hlen : tg.length = lp.length)
    (hrows : ∀ r ∈ lp, r.length = C) :
    label_smoothed_nll_loss C lp tg ε none
      = ((1 - ε - ε / ((C : ℚ) - 1))
            * (∑ i in Finset.range lp.length,
                -((lp.getD i []).getD (tg.getD i 0).toNat 0))
          + (ε / ((C : ℚ) - 1))
            * (∑ i in Finset.range lp.length,
                -(∑ j in Finset.range C, (lp.getD i []).getD j 0)),
         ∑ i in Finset.range lp.length,
            -((lp.getD i []).getD (tg.getD i 0).toNat 0)) := by
  have hnll : (nllTerms none lp tg).sum
      = ∑ i in Finset.range lp.length,
          -((lp.getD i []).getD (tg.getD i 0).toNat 0) := by
    unfold nllTerms
    rw [zip_map_sum_eq_range_sum _ lp tg hlen]
    rfl
  have hsmooth : (smoothTerms none lp tg).sum
      = ∑ i in Finset.range lp.length,
          -(∑ j in Finset.range C, (lp.getD i []).getD j 0) := by
    unfold smoothTerms
    rw [zip_map_sum_eq_range_sum _ lp tg hlen]
    apply Finset.sum_congr rfl
    intro i hi
    simp only [Finset.mem_range] at hi
    have hmem : lp.getD i [] ∈ lp := by
      rw [List.getD_eq_getElem lp [] hi]
      exact List.getElem_mem hi
    have hlenr : (lp.getD i []).length = C := hrows _ hmem
    simp only [maskedAt]
    rw [list_sum_eq_range_sum, hlenr]
  unfold label_smoothed_nll_loss
  rw [hnll, hsmooth]
  rfl

theorem C1_witness :
    2 ≤ 2 ∧
    label_smoothed_nll_loss 2 [[1, 2], [3, 4]] [0, 1] (1/2) none
      = ((1 - (1/2 : ℚ) - (1/2) / ((2 : ℚ) - 1))
            * (∑ i in Finset.range ([[(1:ℚ), 2], [3, 4]]).length,
                -((([[(1:ℚ), 2], [3, 4]]).getD i []).getD
                    ((([(0:ℤ), 1]).getD i 0).toNat) 0))
          + ((1/2) / ((2 : ℚ) - 1))
            * (∑ i in Finset.range ([[(1:ℚ), 2], [3, 4]]).length,
                -(∑ j in Finset.range 2,
                    (([[(1:ℚ), 2], [3, 4]]).getD i []).getD j 0)),
         ∑ i in Finset.range ([[(1:ℚ), 2], [3, 4]]).length,
            -((([[(1:ℚ), 2], [3, 4]]).getD i []).getD
                ((([(0:ℤ), 1]).getD i 0).toNat) 0)) :=
  ⟨by decide,
   C1_label_smoothed_nll_loss_formula 2 [[1, 2], [3, 4]] [0, 1] (1/2)
     (by decide) (by decide) (by decide)⟩

/-- C2: with a non-`None` ignore index, every position whose target equals
the ignore index contributes zero: the returned `nll_loss` and the smooth
component equal the corresponding sums restricted to positions where the
target differs from the ignore index. -/
theorem C2_ignore_index_contributes_zero (C : ℕ) (lp : List Vec)
    (tg : List ℤ) (ε : ℚ) (ig : ℤ) :
    label_smoothed_nll_loss C lp tg ε (some ig)
      = ((1 - ε - epsI ε C)
            * ((((lp.zip tg).filter (fun p => decide (p.2 ≠ ig))).map
                  (fun p => gatherNeg p.1 p.2)).sum)
          + epsI ε C
            * ((((lp.zip tg).filter (fun p => decide (p.2 ≠ ig))).map
                  (fun p => -(p.1.sum))).sum),
         (((lp.zip tg).filter (fun p => decide (p.2 ≠ ig))).map
            (fun p => gatherNeg p.1 p.2)).sum) := by
  have hmask : ∀ (g : Vec × ℤ → ℚ),
      ((lp.zip tg).map (fun p => maskedAt (some ig) p.2 (g p))).sum
        = (((lp.zip tg).filter (fun p => decide (p.2 ≠ ig))).map g).sum := by
    intro g
    rw [← sum_map_ite_eq_filter_sum (lp.zip tg) (fun p => p.2 ≠ ig) g]
    congr 1
    apply List.map_congr_left
    intro p _
    simp only [maskedAt, ne_eq, ite_not]
  unfold label_smoothed_nll_loss nllTerms smoothTerms
  rw [hmask (fun p => gatherNeg p.1 p.2), hmask (fun p => -(p.1.sum))]

/-- C7: with smoothing parameter `epsilon = 0`, the smoothing term vanishes
and the coefficient of `nll_loss` is `1`, so both the reduced and the
unreduced `label_smoothed_nll_loss` return `loss` equal to `nll_loss`;
every loss class of the family builds on these two, so each reduces to
plain masked, weighted cross-entropy. -/
theorem C7_zero_smoothing_reduces_to_nll (C : ℕ) (lp : List Vec)
    (tg : List ℤ) (ig : Option ℤ) (lps : List (List Vec))
    (tgs : List (List ℤ)) :
    (label_smoothed_nll_loss C lp tg 0 ig).1
        = (label_smoothed_nll_loss C lp tg 0 ig).2
      ∧ (label_smoothed_nll_loss2 C lps tgs 0 ig).1
        = (label_smoothed_nll_loss2 C lps tgs 0 ig).2 := by
  constructor
  · simp [label_smoothed_nll_loss, epsI_zero]
  · simp only [label_smoothed_nll_loss2, epsI_zero]
    induction lps generalizing tgs with
    | nil => simp
    | cons a as ih =>
      cases tgs with
      | nil => simp
      | cons b bs =>
        simp only [List.zipWith_cons_cons]
        congr 1
        · apply zipWith_left_proj
          · intro n s
            ring
          · rw [nllTerms_length, smoothTerms_length]
        · exact ih bs

/-- Boolean-mask selection `x[mask]` of an `[N, L, *]` tensor by an `[N, L]`
boolean mask: the rows (last-dimension slices) at `True` positions, in
row-major order. -/
def maskSelect {α : Type} (mask : List (List Bool)) (x : List (List α)) :
    List α :=
  ((x.zip mask).map (fun p => (p.1.zip p.2).filterMap
    (fun q => if q.2 then some q.1 else none))).flatten

/-- `target.ne(ig).long().sum()`: the number of entries different from the
ignore index. -/
def countNe (ig : ℤ) (tg : List ℤ) : ℕ :=
  (tg.filter (fun t => decide (t ≠ ig))).length

/-- The logging dict built by `CrossEntropyLoss.forward`.  The source keys
`sample_ratio` and `nonpad_ratio` are named `sample_fraction` and
`nonpad_fraction` here. -/
structure CELog where
  nll_loss_sum : ℚ
  loss_sum : ℚ
  ppl : ℚ
  bsz : ℕ
  sample_size : ℚ
  sample_fraction : ℚ
  nonpad_fraction : ℚ
deriving DecidableEq

/-- `CrossEntropyLoss.forward(scores, target, mask)` from
`cross_entropy.py`.  `self.label_smoothing` and `self.ignore_index` are
passed explicitly; `F.log_softmax` and `torch.exp` are the abstract
arguments `logSoftmax` and `rexp`.  The `n_nonpad_tokens` line
(`target.ne(self.ignore_index)`) is only reachable with an integer ignore
index in the library, so the `none` case of that logging-only value is
modelled as the token count. -/
def CrossEntropyLoss.forward (ignoreIndex : Option ℤ) (label_smoothing : ℚ)
    (logSoftmax : Vec → Vec) (rexp : ℚ → ℚ) (C : ℕ)
    (scores : List (List Vec)) (target : List (List ℤ))
    (mask : Option (List (List Bool))) : ℚ × CELog :=
  let n_tokens : ℕ := matNumel target
  let n_nonpad_tokens : ℕ := match ignoreIndex with
    | some ig => (target.map (fun row => countNe ig row)).sum
    | none => n_tokens
  let bsz := scores.length
  let selScores : List Vec := match mask with
    | some m => maskSelect m scores
    | none => scores.flatten
  let selTarget : List ℤ := match mask with
    | some m => maskSelect m target
    | none => target.flatten
  let sample_size : ℚ := match ignoreIndex with
    | some ig => (countNe ig selTarget : ℚ)
    | none => (selTarget.length : ℚ)
  let lprobs := selScores.map logSoftmax
  let out := label_smoothed_nll_loss C lprobs selTarget label_smoothing
    ignoreIndex
  let loss := out.1
  let nll_loss := out.2
  let loss_avg := loss / sample_size
  let ppl := rexp (nll_loss / sample_size)
  (loss_avg,
   { nll_loss_sum := nll_loss, loss_sum := loss, ppl := ppl, bsz := bsz,
     sample_size := sample_size,
     sample_fraction := sample_size / (n_tokens : ℚ),
     nonpad_fraction := (n_nonpad_tokens : ℚ) / (n_tokens : ℚ) })

/-- The sample size as the claim states it: the number of entries of the
mask-selected, flattened target differing from the ignore index when the
ignore index is set, and the total number of selected entries otherwise. -/
def sampleSizeSpec (ignoreIndex : Option ℤ)
    (mask : Option (List (List Bool))) (target : List (List ℤ)) : ℕ :=
  match mask, ignoreIndex with
  | some m, some ig =>
    ((target.flatten.zip m.flatten).filter
      (fun p => p.2 && decide (p.1 ≠ ig))).length
  | some m, none =>
    ((target.flatten.zip m.flatten).filter (fun p => p.2)).length
  | none, some ig => (target.flatten.filter (fun t => decide (t ≠ ig))).length
  | none, none => target.flatten.length

/-- Shape agreement between an optional `[N, L]` boolean mask and an
`[N, L]` target. -/
def maskShapeOk (mask : Option (List (List Bool)))
    (target : List (List ℤ)) : Prop :=
  match mask with
  | none => True
  | some m => List.Forall₂ (fun trow mrow => trow.length = mrow.length)
      target m

theorem countNe_append (ig : ℤ) (a b : List ℤ) :
    countNe ig (a ++ b) = countNe ig a + countNe ig b := by
  simp [countNe, List.filter_append]

theorem sel_count_row (ig : ℤ) (l : List (ℤ × Bool)) :
    countNe ig (l.filterMap (fun q => if q.2 then some q.1 else none))
      = (l.filter (fun p => p.2 && decide (p.1 ≠ ig))).length := by
  induction l with
  | nil => simp [countNe]
  | cons a as ih =>
    rcases a with ⟨t, b⟩
    cases b
    · simpa [countNe] using ih
    · by_cases ht : t = ig
      · simpa [countNe, ht] using ih
      · simpa [countNe, ht] using ih

theorem sel_length_row {α : Type} (l : List (α × Bool)) :
    (l.filterMap (fun q => if q.2 then some q.1 else none)).length
      = (l.filter (fun p => p.2)).length := by
  induction l with
  | nil => simp
  | cons a as ih =>
    rcases a with ⟨t, b⟩
    cases b
    · simpa using ih
    · simpa using ih

theorem maskSelect_cons {α : Type} (mrow : List Bool) (ms : List (List Bool))
    (trow : List α) (ts : List (List α)) :
    maskSelect (mrow :: ms) (trow :: ts)
      = (trow.zip mrow).filterMap (fun q => if q.2 then some q.1 else none)
        ++ maskSelect ms ts := by
  simp [maskSelect]

theorem maskSelect_countNe (ig : ℤ) {target : List (List ℤ)}
    {m : List (List Bool)}
    (hf : List.Forall₂ (fun trow mrow => trow.length = mrow.length) target m) :
    countNe ig (maskSelect m target)
      = ((target.flatten.zip m.flatten).filter
          (fun p => p.2 && decide (p.1 ≠ ig))).length := by
  induction hf with
  | nil => simp [maskSelect, countNe]
  | @cons trow mrow ts ms hlen hfs ih =>
    rw [maskSelect_cons, countNe_append, List.flatten_cons, List.flatten_cons,
      List.zip_append hlen, List.filter_append, List.length_append,
      sel_count_row, ih]

theorem maskSelect_length (ig : ℤ) {target : List (List ℤ)}
    {m : List (List Bool)}
    (hf : List.Forall₂ (fun trow mrow => trow.length = mrow.length) target m) :
    (maskSelect m target).length
      = ((target.flatten.zip m.flatten).filter (fun p => p.2)).length := by
  induction hf with
  | nil => simp [maskSelect]
  | @cons trow mrow ts ms hlen hfs ih =>
    rw [maskSelect_cons, List.length_append, List.flatten_cons,
      List.flatten_cons, List.zip_append hlen, List.filter_append,
      List.length_append, sel_length_row, ih]

/-- C4: the scalar returned by `CrossEntropyLoss.forward` is the summed
label-smoothed loss divided by the sample size, where the sample size is
the number of entries of the mask-selected, flattened target that differ
from the ignore index when the ignore index is set, and the total number
of selected entries otherwise; the logged `ppl` is
`exp(nll_loss_sum / sample_size)`. -/
theorem C4_cross_entropy_forward_normalization (ignoreIndex : Option ℤ)
    (ε : ℚ) (logSoftmax : Vec → Vec) (rexp : ℚ → ℚ) (C : ℕ)
    (scores : List (List Vec)) (target : List (List ℤ))
    (mask : Option (List (List Bool))) (hshape : maskShapeOk mask target) :
    (CrossEntropyLoss.forward ignoreIndex ε logSoftmax rexp C scores target
        mask).1
      = (CrossEntropyLoss.forward ignoreIndex ε logSoftmax rexp C scores
          target mask).2.loss_sum
        / (sampleSizeSpec ignoreIndex mask target : ℚ)
    ∧ (CrossEntropyLoss.forward ignoreIndex ε logSoftmax rexp C scores target
        mask).2.ppl
      = rexp ((CrossEntropyLoss.forward ignoreIndex ε logSoftmax rexp C
          scores target mask).2.nll_loss_sum
        / (sampleSizeSpec ignoreIndex mask target : ℚ))
    ∧ (CrossEntropyLoss.forward ignoreIndex ε logSoftmax rexp C scores target
        mask).2.sample_size
      = (sampleSizeSpec ignoreIndex mask target : ℚ) := by
  have hss : (CrossEntropyLoss.forward ignoreIndex ε logSoftmax rexp C scores
      target mask).2.sample_size
      = (sampleSizeSpec ignoreIndex mask target : ℚ) := by
    cases mask with
    | none =>
      cases ignoreIndex with
      | none => simp [CrossEntropyLoss.forward, sampleSizeSpec]
      | some ig => simp [CrossEntropyLoss.forward, sampleSizeSpec, countNe]
    | some m =>
      have hf : List.Forall₂ (fun trow mrow => trow.length = mrow.length)
          target m := hshape
      cases ignoreIndex with
      | none =>
        simp [CrossEntropyLoss.forward, sampleSizeSpec, maskSelect_length 0 hf]
      | some ig =>
        simp [CrossEntropyLoss.forward, sampleSizeSpec, maskSelect_countNe ig hf]
  have h1 : (CrossEntropyLoss.forward ignoreIndex ε logSoftmax rexp C scores
      target mask).1
      = (CrossEntropyLoss.forward ignoreIndex ε logSoftmax rexp C scores
          target mask).2.loss_sum
        / (CrossEntropyLoss.forward ignoreIndex ε logSoftmax rexp C scores
          target mask).2.sample_size := rfl
  have h2 : (CrossEntropyLoss.forward ignoreIndex ε logSoftmax rexp C scores
      target mask).2.ppl
      = rexp ((CrossEntropyLoss.forward ignoreIndex ε logSoftmax rexp C
          scores target mask).2.nll_loss_sum
        / (CrossEntropyLoss.forward ignoreIndex ε logSoftmax rexp C scores
          target mask).2.sample_size) := rfl
  exact ⟨by rw [h1, hss], by rw [h2, hss], hss⟩

theorem C4_witness :
    maskShapeOk (some [[true, false], [true]]) [[0, 1], [1]]
    ∧ ((CrossEntropyLoss.forward (some 1) (1/4) id id 2
          [[[1, 2], [3, 4]], [[5, 6]]] [[0, 1], [1]]
          (some [[true, false], [true]])).1
        = (CrossEntropyLoss.forward (some 1) (1/4) id id 2
            [[[1, 2], [3, 4]], [[5, 6]]] [[0, 1], [1]]
            (some [[true, false], [true]])).2.loss_sum
          / (sampleSizeSpec (some 1) (some [[true, false], [true]])
              [[0, 1], [1]] : ℚ)
      ∧ (CrossEntropyLoss.forward (some 1) (1/4) id id 2
          [[[1, 2], [3, 4]], [[5, 6]]] [[0, 1], [1]]
          (some [[true, false], [true]])).2.ppl
        = id ((CrossEntropyLoss.forward (some 1) (1/4) id id 2
            [[[1, 2], [3, 4]], [[5, 6]]] [[0, 1], [1]]
            (some [[true, false], [true]])).2.nll_loss_sum
          / (sampleSizeSpec (some 1) (some [[true, false], [true]])
              [[0, 1], [1]] : ℚ))
      ∧ (CrossEntropyLoss.forward (some 1) (1/4) id id 2
          [[[1, 2], [3, 4]], [[5, 6]]] [[0, 1], [1]]
          (some [[true, false], [true]])).2.sample_size
        = (sampleSizeSpec (some 1) (some [[true, false], [true]])
            [[0, 1], [1]] : ℚ)) :=
  have hs : maskShapeOk (some [[true, false], [true]]) [[0, 1], [1]] := by
    refine List.Forall₂.cons rfl (List.Forall₂.cons rfl List.Forall₂.nil)
  ⟨hs, C4_cross_entropy_forward_normalization (some 1) (1/4) id id 2
    [[[1, 2], [3, 4]], [[5, 6]]] [[0, 1], [1]]
    (some [[true, false], [true]]) hs⟩

/-- The `sample_size = n_nonpad_tokens` value computed before masking by
`Coord2SeqCrossEntropyLoss`, `RDMCrossEntropyLoss` and
`StructAARDMCrossEntropyLoss`: the count of non-ignored target entries if an
ignore index is set, the total token count otherwise. -/
def nonpadSampleSize (ignoreIndex : Option ℤ) (target : List (List ℤ)) : ℚ :=
  match ignoreIndex with
  | some ig => (((target.map (fun row => countNe ig row)).sum : ℕ) : ℚ)
  | none => ((matNumel target : ℕ) : ℚ)

/-- The logging dict of `Coord2SeqCrossEntropyLoss.forward`.  The source
keys `sample_ratio` and `nonpad_ratio` are named `sample_fraction` and
`nonpad_fraction` here. -/
structure SeqLog where
  nll_loss : ℚ
  ppl : ℚ
  fullseq_loss : ℚ
  fullseq_nll_loss : ℚ
  bsz : ℕ
  sample_size : ℚ
  sample_fraction : ℚ
  nonpad_fraction : ℚ
deriving DecidableEq

/-- `Coord2SeqCrossEntropyLoss.forward(scores, target, label_mask,
coord_mask, weights)` from `cross_entropy.py`.  Masks are already float
tensors (`Mat`); `label_mask` defaults to `coord_mask` when `None`. -/
def Coord2SeqCrossEntropyLoss.forward (ignoreIndex : Option ℤ)
    (label_smoothing : ℚ) (logSoftmax : Vec → Vec) (rexp : ℚ → ℚ) (C : ℕ)
    (scores : List (List Vec)) (target : List (List ℤ))
    (label_mask coord_mask : Option Mat) (weights : Option Mat) :
    ℚ × SeqLog :=
  let label_mask1 := match label_mask with
    | none => coord_mask
    | some m => some m
  let bsz := scores.length
  let n_tokens : ℕ := matNumel target
  let sample_size0 := nonpadSampleSize ignoreIndex target
  let lprobs := scores.map (fun row => row.map logSoftmax)
  let out := label_smoothed_nll_loss2 C lprobs target label_smoothing
    ignoreIndex
  let loss1 := match weights with
    | some w => matHadamard out.1 w
    | none => out.1
  let nll1 := match weights with
    | some w => matHadamard out.2 w
    | none => out.2
  let fullseq_loss := matSum loss1 / sample_size0
  let fullseq_nll_loss := matSum nll1 / sample_size0
  match label_mask1 with
  | some m =>
    let sample_size := matSum m
    let loss := matSum (matHadamard loss1 m) / sample_size
    let nll := matSum (matHadamard nll1 m) / sample_size
    (loss,
     { nll_loss := nll, ppl := rexp nll, fullseq_loss := fullseq_loss,
       fullseq_nll_loss := fullseq_nll_loss, bsz := bsz,
       sample_size := sample_size,
       sample_fraction := sample_size / (n_tokens : ℚ),
       nonpad_fraction := sample_size0 / (n_tokens : ℚ) })
  | none =>
    (fullseq_loss,
     { nll_loss := fullseq_nll_loss, ppl := rexp fullseq_nll_loss,
       fullseq_loss := fullseq_loss, fullseq_nll_loss := fullseq_nll_loss,
       bsz := bsz, sample_size := sample_size0,
       sample_fraction := sample_size0 / (n_tokens : ℚ),
       nonpad_fraction := sample_size0 / (n_tokens : ℚ) })

/-- The logging dict of `RDMCrossEntropyLoss.forward`; the optional fields
are present exactly when the corresponding flag is set.  The source keys
`sample_ratio` and `nonpad_ratio` are named `sample_fraction` and
`nonpad_fraction` here. -/
structure RDMLog where
  nll_loss : ℚ
  ppl : ℚ
  fullseq_loss : ℚ
  fullseq_nll_loss : ℚ
  bsz : ℕ
  sample_size : ℚ
  sample_fraction : ℚ
  nonpad_fraction : ℚ
  weight_diff_loss : ℚ
  constant_diff_loss : Option ℚ
  weight_diff_t1_loss : Option ℚ
  weight_diff_t2_loss : Option ℚ
deriving DecidableEq

/-- `Tensor.chunk(2)` along the batch dimension followed by unpacking into
two values: defined only when there are at least two rows (with a single
row `chunk` yields one chunk and the unpacking raises). -/
def chunk2 {α : Type} (xs : List α) : Option (List α × List α) :=
  if 2 ≤ xs.length then some (xs.splitAt ((xs.length + 1) / 2)) else none

/-- The `watch_t1_t2_loss` block shared verbatim by
`RDMCrossEntropyLoss.forward` and the `compute` closure of
`StructAARDMCrossEntropyLoss.forward`: chunk the (weighted) loss and the
label mask into two halves along the batch dimension and average each
half.  `none` is a raise: `chunk(2)` unpacking with fewer than two rows,
or `label_mask = None`. -/
def rdmT1T2 (watch : Bool) (loss1 : Mat) (label_mask : Option Mat) :
    Option (Option (ℚ × ℚ)) :=
  if watch then do
    let lchunks ← chunk2 loss1
    let lm ← label_mask
    let mchunks ← chunk2 lm
    pure (some
      (matSum (matHadamard lchunks.1 mchunks.1) / matSum mchunks.1,
       matSum (matHadamard lchunks.2 mchunks.2) / matSum mchunks.2))
  else pure none

/-- The `cal_constant_loss` block shared verbatim by
`RDMCrossEntropyLoss.forward` and the `compute` closure of
`StructAARDMCrossEntropyLoss.forward`: recompute the unweighted loss,
multiply by all-one weights (`weights.new_ones`) and by the label mask,
and normalize by the (possibly reassigned) sample size.  `none` is a
raise: `weights = None` (`new_ones` on `None`) or `label_mask = None`
(`constant_loss * None`). -/
def rdmConstant (cal : Bool) (C : ℕ) (lprobs : List (List Vec))
    (target : List (List ℤ)) (label_smoothing : ℚ) (ignoreIndex : Option ℤ)
    (weights label_mask : Option Mat) (sample_size : ℚ) :
    Option (Option ℚ) :=
  if cal then do
    let w ← weights
    let constant_weights := w.map (fun row => row.map (fun _ => (1 : ℚ)))
    let cout := label_smoothed_nll_loss2 C lprobs target label_smoothing
      ignoreIndex
    let closs := matHadamard cout.1 constant_weights
    let lm ← label_mask
    pure (some (matSum (matHadamard closs lm) / sample_size))
  else pure none

/-- `RDMCrossEntropyLoss.forward(scores, target, label_mask, weights,
cal_constant_loss, watch_t1_t2_loss)` from `cross_entropy.py`.  The result
is `none` when the Python code raises: unpacking `chunk(2)` of a
single-row tensor, `label_mask.chunk(2)` or `constant_loss * label_mask`
with `label_mask = None`, or `weights.new_ones` with `weights = None`. -/
def RDMCrossEntropyLoss.forward (ignoreIndex : Option ℤ)
    (label_smoothing : ℚ) (logSoftmax : Vec → Vec) (rexp : ℚ → ℚ) (C : ℕ)
    (scores : List (List Vec)) (target : List (List ℤ))
    (label_mask : Option Mat) (weights : Option Mat)
    (cal_constant_loss watch_t1_t2_loss : Bool) : Option (ℚ × RDMLog) := do
  let bsz := scores.length
  let n_tokens : ℕ := matNumel target
  let sample_size0 := nonpadSampleSize ignoreIndex target
  let lprobs := scores.map (fun row => row.map logSoftmax)
  let out := label_smoothed_nll_loss2 C lprobs target label_smoothing
    ignoreIndex
  let loss1 := match weights with
    | some w => matHadamard out.1 w
    | none => out.1
  let nll1 := match weights with
    | some w => matHadamard out.2 w
    | none => out.2
  let fullseq_loss := matSum loss1 / sample_size0
  let fullseq_nll_loss := matSum nll1 / sample_size0
  let t1t2 ← rdmT1T2 watch_t1_t2_loss loss1 label_mask
  let masked : ℚ × ℚ × ℚ := match label_mask with
    | some m => (matSum (matHadamard loss1 m) / matSum m,
                 matSum (matHadamard nll1 m) / matSum m,
                 matSum m)
    | none => (fullseq_loss, fullseq_nll_loss, sample_size0)
  let loss := masked.1
  let nll := masked.2.1
  let sample_size := masked.2.2
  let ppl := rexp nll
  let constant ← rdmConstant cal_constant_loss C lprobs target
    label_smoothing ignoreIndex weights label_mask sample_size
  pure (loss,
    { nll_loss := nll, ppl := ppl, fullseq_loss := fullseq_loss,
      fullseq_nll_loss := fullseq_nll_loss, bsz := bsz,
      sample_size := sample_size,
      sample_fraction := sample_size / (n_tokens : ℚ),
      nonpad_fraction := sample_size0 / (n_tokens : ℚ),
      weight_diff_loss := loss,
      constant_diff_loss := constant,
      weight_diff_t1_loss := t1t2.map (fun p => p.1),
      weight_diff_t2_loss := t1t2.map (fun p => p.2) })

/-- C5: in `Coord2SeqCrossEntropyLoss.forward` and
`RDMCrossEntropyLoss.forward` with weights present, the per-position `loss`
and `nll_loss` tensors are multiplied elementwise by the weights before any
summation or normalization: the returned masked loss and the logged
`fullseq_loss` (and their `nll` analogues) are weighted sums. -/
theorem C5_weights_multiply_before_sums (ignoreIndex : Option ℤ) (ε : ℚ)
    (logSoftmax : Vec → Vec) (rexp : ℚ → ℚ) (C : ℕ)
    (scores : List (List Vec)) (target : List (List ℤ)) (m w : Mat)
    (coord_mask : Option Mat) :
    let L := (label_smoothed_nll_loss2 C
      (scores.map (fun row => row.map logSoftmax)) target ε ignoreIndex).1
    let N := (label_smoothed_nll_loss2 C
      (scores.map (fun row => row.map logSoftmax)) target ε ignoreIndex).2
    let S := nonpadSampleSize ignoreIndex target
    let F := Coord2SeqCrossEntropyLoss.forward ignoreIndex ε logSoftmax rexp
      C scores target (some m) coord_mask (some w)
    let R := RDMCrossEntropyLoss.forward ignoreIndex ε logSoftmax rexp C
      scores target (some m) (some w) false false
    F.1 = matSum (matHadamard (matHadamard L w) m) / matSum m
    ∧ F.2.fullseq_loss = matSum (matHadamard L w) / S
    ∧ F.2.nll_loss = matSum (matHadamard (matHadamard N w) m) / matSum m
    ∧ F.2.fullseq_nll_loss = matSum (matHadamard N w) / S
    ∧ R.map (fun p => p.1)
      = some (matSum (matHadamard (matHadamard L w) m) / matSum m)
    ∧ R.map (fun p => p.2.fullseq_loss) = some (matSum (matHadamard L w) / S)
    ∧ R.map (fun p => p.2.nll_loss)
      = some (matSum (matHadamard (matHadamard N w) m) / matSum m)
    ∧ R.map (fun p => p.2.fullseq_nll_loss)
      = some (matSum (matHadamard N w) / S) :=
  ⟨rfl, rfl, rfl, rfl, rfl, rfl, rfl, rfl⟩

theorem matHadamard_length (a b : Mat) :
    (matHadamard a b).length = min a.length b.length := by
  simp [matHadamard]

theorem lsnll2_fst_length (C : ℕ) (lp : List (List Vec))
    (tg : List (List ℤ)) (ε : ℚ) (ig : Option ℤ) :
    (label_smoothed_nll_loss2 C lp tg ε ig).1.length
      = min lp.length tg.length := by
  simp [label_smoothed_nll_loss2, List.length_zipWith, min_self]

theorem none_bind_eq {α β : Type} (f : α → Option β) :
    ((none : Option α) >>= f) = none := rfl

theorem bind_const_none {α β : Type} (x : Option α) :
    (x >>= fun _ => (none : Option β)) = none := by
  cases x <;> rfl

theorem isSome_bind_of {α β : Type} {x : Option α} {f : α → Option β}
    (hx : x.isSome = true) (hf : ∀ a, (f a).isSome = true) :
    (x >>= f).isSome = true := by
  rcases x with _ | a
  · exact absurd hx (by simp)
  · exact hf a

theorem rdmT1T2_false (l : Mat) (lm : Option Mat) :
    rdmT1T2 false l lm = some none := rfl

theorem rdmT1T2_mask_none (l : Mat) : rdmT1T2 true l none = none := by
  cases h : chunk2 l <;> simp [rdmT1T2, h]

theorem rdmT1T2_isSome (l m : Mat) (h1 : 2 ≤ l.length) (h2 : 2 ≤ m.length) :
    (rdmT1T2 true l (some m)).isSome = true := by
  simp [rdmT1T2, chunk2, h1, h2]

theorem rdmConstant_false (C : ℕ) (lp : List (List Vec))
    (tg : List (List ℤ)) (ε : ℚ) (ig : Option ℤ) (w lm : Option Mat)
    (ss : ℚ) : rdmConstant false C lp tg ε ig w lm ss = some none := rfl

theorem rdmConstant_w_none (C : ℕ) (lp : List (List Vec))
    (tg : List (List ℤ)) (ε : ℚ) (ig : Option ℤ) (lm : Option Mat)
    (ss : ℚ) : rdmConstant true C lp tg ε ig none lm ss = none := rfl

theorem rdmConstant_mask_none (C : ℕ) (lp : List (List Vec))
    (tg : List (List ℤ)) (ε : ℚ) (ig : Option ℤ) (w : Option Mat)
    (ss : ℚ) : rdmConstant true C lp tg ε ig w none ss = none := by
  rcases w with _ | w <;> rfl

/-- Shape constraint on an optional `[N, L]` mask or weight tensor: if
present it has the given number of batch rows. -/
def optMatLen (om : Option Mat) (n : ℕ) : Prop :=
  match om with
  | none => True
  | some m => m.length = n

/-- C10 counterexample: the claim states that `cal_constant_loss = True`
with non-`None` `weights` (and `watch_t1_t2_loss = False`, so its
precondition is vacuous) suffices for the flag branches to complete.  At
the input below those preconditions hold, yet the call fails (the
`cal_constant_loss` branch evaluates `constant_loss * label_mask` with
`label_mask = None`). -/
theorem C10_counterexample_constant_needs_mask :
    RDMCrossEntropyLoss.forward none 0 id id 2 [[[1, 2]]] [[0]] none
      (some [[1]]) true false = none := rfl

/-- C10 (amended): `RDMCrossEntropyLoss.forward` completes when
`cal_constant_loss` implies both `weights` and `label_mask` are present,
and `watch_t1_t2_loss` implies `label_mask` is present and the batch has at
least two rows (for the `chunk(2)` unpacking); violating any of the
`None`-conditions makes the call fail on a `None` value. -/
theorem C10_rdm_flag_preconditions (ignoreIndex : Option ℤ) (ε : ℚ)
    (logSoftmax : Vec → Vec) (rexp : ℚ → ℚ) (C : ℕ)
    (scores : List (List Vec)) (target : List (List ℤ))
    (label_mask weights : Option Mat) (ccl wtt : Bool)
    (ht : target.length = scores.length)
    (hw : optMatLen weights scores.length)
    (hm : optMatLen label_mask scores.length) :
    ((ccl = true → weights.isSome = true ∧ label_mask.isSome = true) →
     (wtt = true → label_mask.isSome = true ∧ 2 ≤ scores.length) →
     (RDMCrossEntropyLoss.forward ignoreIndex ε logSoftmax rexp C scores
        target label_mask weights ccl wtt).isSome = true)
    ∧ (ccl = true → weights = none →
        RDMCrossEntropyLoss.forward ignoreIndex ε logSoftmax rexp C scores
          target label_mask weights ccl wtt = none)
    ∧ (ccl = true → label_mask = none →
        RDMCrossEntropyLoss.forward ignoreIndex ε logSoftmax rexp C scores
          target label_mask weights ccl wtt = none)
    ∧ (wtt = true → label_mask = none →
        RDMCrossEntropyLoss.forward ignoreIndex ε logSoftmax rexp C scores
          target label_mask weights ccl wtt = none) := by
  refine ⟨?_, ?_, ?_, ?_⟩
  · intro hc hwt
    simp only [RDMCrossEntropyLoss.forward]
    cases ccl with
    | true =>
      obtain ⟨hws, hms⟩ := hc rfl
      rcases weights with _ | w
      · simp at hws
      rcases label_mask with _ | m
      · simp at hms
      have hwl : w.length = scores.length := hw
      have hml : m.length = scores.length := hm
      cases wtt with
      | false =>
        apply isSome_bind_of
        · simp [rdmT1T2_false]
        intro a
        apply isSome_bind_of
        · rfl
        intro b
        rfl
      | true =>
        obtain ⟨_, hN⟩ := hwt rfl
        apply isSome_bind_of
        · apply rdmT1T2_isSome
          · rw [matHadamard_length, lsnll2_fst_length, List.length_map, ht,
              min_self, hwl, min_self]
            exact hN
          · rw [hml]
            exact hN
        intro a
        apply isSome_bind_of
        · rfl
        intro b
        rfl
    | false =>
      cases wtt with
      | false =>
        apply isSome_bind_of
        · simp [rdmT1T2_false]
        intro a
        apply isSome_bind_of
        · simp [rdmConstant_false]
        intro b
        rfl
      | true =>
        obtain ⟨hms, hN⟩ := hwt rfl
        rcases label_mask with _ | m
        · simp at hms
        have hml : m.length = scores.length := hm
        rcases weights with _ | w
        · apply isSome_bind_of
          · apply rdmT1T2_isSome
            · rw [lsnll2_fst_length, List.length_map, ht, min_self]
              exact hN
            · rw [hml]
              exact hN
          intro a
          apply isSome_bind_of
          · simp [rdmConstant_false]
          intro b
          rfl
        · have hwl : w.length = scores.length := hw
          apply isSome_bind_of
          · apply rdmT1T2_isSome
            · rw [matHadamard_length, lsnll2_fst_length, List.length_map, ht,
                min_self, hwl, min_self]
              exact hN
            · rw [hml]
              exact hN
          intro a
          apply isSome_bind_of
          · simp [rdmConstant_false]
          intro b
          rfl
  · intro hc hwn
    subst hc hwn
    simp [RDMCrossEntropyLoss.forward, rdmConstant_w_none, none_bind_eq,
      bind_const_none]
  · intro hc hmn
    subst hc hmn
    simp [RDMCrossEntropyLoss.forward, rdmConstant_mask_none, none_bind_eq,
      bind_const_none]
  · intro hwt hmn
    subst hwt hmn
    simp [RDMCrossEntropyLoss.forward, rdmT1T2_mask_none, none_bind_eq]

theorem C10_witness :
    ([[(0 : ℤ)], [1]] : List (List ℤ)).length
        = ([[[(1 : ℚ), 2]], [[3, 4]]] : List (List Vec)).length
    ∧ (((true = true →
          (some [[(1 : ℚ)], [1]] : Option Mat).isSome = true
            ∧ (some [[(1 : ℚ)], [1]] : Option Mat).isSome = true) →
        (true = true →
          (some [[(1 : ℚ)], [1]] : Option Mat).isSome = true
            ∧ 2 ≤ ([[[(1 : ℚ), 2]], [[3, 4]]] : List (List Vec)).length) →
        (RDMCrossEntropyLoss.forward none 0 id id 2 [[[1, 2]], [[3, 4]]]
          [[0], [1]] (some [[1], [1]]) (some [[1], [1]]) true
          true).isSome = true)
      ∧ (true = true → (some [[(1 : ℚ)], [1]] : Option Mat) = none →
          RDMCrossEntropyLoss.forward none 0 id id 2 [[[1, 2]], [[3, 4]]]
            [[0], [1]] (some [[1], [1]]) (some [[1], [1]]) true true = none)
      ∧ (true = true → (some [[(1 : ℚ)], [1]] : Option Mat) = none →
          RDMCrossEntropyLoss.forward none 0 id id 2 [[[1, 2]], [[3, 4]]]
            [[0], [1]] (some [[1], [1]]) (some [[1], [1]]) true true = none)
      ∧ (true = true → (some [[(1 : ℚ)], [1]] : Option Mat) = none →
          RDMCrossEntropyLoss.forward none 0 id id 2 [[[1, 2]], [[3, 4]]]
            [[0], [1]] (some [[1], [1]]) (some [[1], [1]]) true
            true = none)) :=
  ⟨rfl, C10_rdm_flag_preconditions none 0 id id 2 [[[1, 2]], [[3, 4]]]
    [[0], [1]] (some [[1], [1]]) (some [[1], [1]]) true true rfl rfl rfl⟩

/-- The `compute` closure inside `StructAARDMCrossEntropyLoss.forward`:
identical to `RDMCrossEntropyLoss.forward` except that the masked sample
size is guarded as `max(1, label_mask.sum())`, and it returns
`(loss, nll_loss, logging)`.  The bit-based branch (`label_mask` one
dimension short of `loss`) does not arise in this `[N, L]` embedding,
where the two shapes agree. -/
def structCompute (ignoreIndex : Option ℤ) (label_smoothing : ℚ)
    (logSoftmax : Vec → Vec) (rexp : ℚ → ℚ) (C : ℕ)
    (scores : List (List Vec)) (target : List (List ℤ))
    (label_mask weights : Option Mat)
    (cal_constant_loss watch_t1_t2_loss : Bool) :
    Option (ℚ × ℚ × RDMLog) := do
  let bsz := scores.length
  let n_tokens : ℕ := matNumel target
  let sample_size0 := nonpadSampleSize ignoreIndex target
  let lprobs := scores.map (fun row => row.map logSoftmax)
  let out := label_smoothed_nll_loss2 C lprobs target label_smoothing
    ignoreIndex
  let loss1 := match weights with
    | some w => matHadamard out.1 w
    | none => out.1
  let nll1 := match weights with
    | some w => matHadamard out.2 w
    | none => out.2
  let fullseq_loss := matSum loss1 / sample_size0
  let fullseq_nll_loss := matSum nll1 / sample_size0
  let t1t2 ← rdmT1T2 watch_t1_t2_loss loss1 label_mask
  let masked : ℚ × ℚ × ℚ := match label_mask with
    | some m => (matSum (matHadamard loss1 m) / max 1 (matSum m),
                 matSum (matHadamard nll1 m) / max 1 (matSum m),
                 max 1 (matSum m))
    | none => (fullseq_loss, fullseq_nll_loss, sample_size0)
  let loss := masked.1
  let nll := masked.2.1
  let sample_size := masked.2.2
  let ppl := rexp nll
  let constant ← rdmConstant cal_constant_loss C lprobs target
    label_smoothing ignoreIndex weights label_mask sample_size
  pure (loss, nll,
    { nll_loss := nll, ppl := ppl, fullseq_loss := fullseq_loss,
      fullseq_nll_loss := fullseq_nll_loss, bsz := bsz,
      sample_size := sample_size,
      sample_fraction := sample_size / (n_tokens : ℚ),
      nonpad_fraction := sample_size0 / (n_tokens : ℚ),
      weight_diff_loss := loss,
      constant_diff_loss := constant,
      weight_diff_t1_loss := t1t2.map (fun p => p.1),
      weight_diff_t2_loss := t1t2.map (fun p => p.2) })

/-- The non-dict branch of `StructAARDMCrossEntropyLoss.forward`: a single
`compute` call returning `(loss, logging_output)`. -/
def StructAARDMCrossEntropyLoss.forward_single (ignoreIndex : Option ℤ)
    (label_smoothing : ℚ) (logSoftmax : Vec → Vec) (rexp : ℚ → ℚ) (C : ℕ)
    (scores : List (List Vec)) (target : List (List ℤ))
    (label_mask weights : Option Mat)
    (cal_constant_loss watch_t1_t2_loss : Bool) : Option (ℚ × RDMLog) :=
  (structCompute ignoreIndex label_smoothing logSoftmax rexp C scores target
    label_mask weights cal_constant_loss watch_t1_t2_loss).map
    (fun r => (r.1, r.2.2))

/-- The aggregate logging entries the dict branch of
`StructAARDMCrossEntropyLoss.forward` builds after the key loop. -/
structure StructAgg where
  sample_size : ℚ
  nll_loss : ℚ
  fullseq_loss : ℚ
  fullseq_nll_loss : ℚ
  ppl : ℚ
deriving DecidableEq

/-- The dict branch of `StructAARDMCrossEntropyLoss.forward`: `keys` is the
dict iteration order and the four value dicts are total functions on keys.
Per-key losses and nll losses are accumulated and divided by the number of
keys; `sample_size`, `fullseq_loss`, `fullseq_nll_loss` and `ppl` are
copied from the logging of the last iterated key.  `none` models a raise:
an empty dict (the loop body never binds `k` and dividing by zero keys
raises) or a raising `compute` call. -/
def StructAARDMCrossEntropyLoss.forward_dict (ignoreIndex : Option ℤ)
    (label_smoothing : ℚ) (logSoftmax : Vec → Vec) (rexp : ℚ → ℚ) (C : ℕ)
    (keys : List String) (scoresD : String → List (List Vec))
    (targetD : String → List (List ℤ)) (lmaskD : String → Option Mat)
    (weightsD : String → Option Mat)
    (cal_constant_loss watch_t1_t2_loss : Bool) : Option (ℚ × StructAgg) :=
  match keys with
  | [] => none
  | _ :: _ => do
    let results ← keys.mapM (fun k =>
      structCompute ignoreIndex label_smoothing logSoftmax rexp C
        (scoresD k) (targetD k) (lmaskD k) (weightsD k)
        cal_constant_loss watch_t1_t2_loss)
    let losses := (results.map (fun r => r.1)).sum
    let nll_losses := (results.map (fun r => r.2.1)).sum
    let lastLog ← (results.map (fun r => r.2.2)).getLast?
    pure (losses / (keys.length : ℚ),
      { sample_size := lastLog.sample_size,
        nll_loss := nll_losses / (keys.length : ℚ),
        fullseq_loss := lastLog.fullseq_loss,
        fullseq_nll_loss := lastLog.fullseq_nll_loss,
        ppl := lastLog.ppl })

theorem sum_zipWith_zero (r s : Vec) (hz : ∀ x ∈ s, x = 0) :
    (List.zipWith (fun x y => x * y) r s).sum = 0 := by
  induction r generalizing s with
  | nil => simp
  | cons a as ih =>
    cases s with
    | nil => simp
    | cons b bs =>
      have hb : b = 0 := hz b (by simp)
      have hbs : ∀ x ∈ bs, x = 0 := fun x hx => hz x (by simp [hx])
      simp [hb, ih bs hbs]

theorem matSum_hadamard_zero (a m : Mat) (hz : ∀ row ∈ m, ∀ x ∈ row, x = 0) :
    matSum (matHadamard a m) = 0 := by
  induction a generalizing m with
  | nil => simp [matSum, matHadamard]
  | cons r rs ih =>
    cases m with
    | nil => simp [matSum, matHadamard]
    | cons s ss =>
      have hs : ∀ x ∈ s, x = 0 := hz s (by simp)
      have hss : ∀ row ∈ ss, ∀ x ∈ row, x = 0 :=
        fun row hrow => hz row (by simp [hrow])
      simp only [matHadamard, List.zipWith_cons_cons, matSum, List.map_cons,
        List.sum_cons] at ih ⊢
      rw [sum_zipWith_zero r s hs, ih ss hss, add_zero]

/-- C8: with a label mask present, `StructAARDMCrossEntropyLoss`
normalizes the masked `loss` and `nll_loss` by `max(1, label_mask.sum())`,
which is at least `1` and hence never zero; for an all-zero (all-`False`)
label mask the masked loss and nll loss are both `0`.  The analogous
masked divisions in `Coord2SeqCrossEntropyLoss` and `RDMCrossEntropyLoss`
use the raw `label_mask.sum()` with no such guard. -/
theorem C8_structaardm_max_one_guard (ignoreIndex : Option ℤ) (ε : ℚ)
    (logSoftmax : Vec → Vec) (rexp : ℚ → ℚ) (C : ℕ)
    (scores : List (List Vec)) (target : List (List ℤ)) (m : Mat)
    (coord_mask weights : Option Mat) :
    (structCompute ignoreIndex ε logSoftmax rexp C scores target (some m)
        weights false false).map (fun r => r.2.2.sample_size)
      = some (max 1 (matSum m))
    ∧ (1 : ℚ) ≤ max 1 (matSum m)
    ∧ ((∀ row ∈ m, ∀ x ∈ row, x = (0 : ℚ)) →
        (structCompute ignoreIndex ε logSoftmax rexp C scores target (some m)
            weights false false).map (fun r => r.1) = some 0
        ∧ (structCompute ignoreIndex ε logSoftmax rexp C scores target
            (some m) weights false false).map (fun r => r.2.1) = some 0)
    ∧ (Coord2SeqCrossEntropyLoss.forward ignoreIndex ε logSoftmax rexp C
        scores target (some m) coord_mask weights).2.sample_size = matSum m
    ∧ (RDMCrossEntropyLoss.forward ignoreIndex ε logSoftmax rexp C scores
        target (some m) weights false false).map (fun p => p.2.sample_size)
      = some (matSum m) := by
  rcases weights with _ | w
  · refine ⟨rfl, le_max_left 1 _, ?_, rfl, rfl⟩
    intro hz
    constructor
    · have e1 : (structCompute ignoreIndex ε logSoftmax rexp C scores target
          (some m) none false false).map (fun r => r.1)
          = some (matSum (matHadamard (label_smoothed_nll_loss2 C
              (scores.map (fun row => row.map logSoftmax)) target ε
              ignoreIndex).1 m) / max 1 (matSum m)) := rfl
      rw [e1, matSum_hadamard_zero _ m hz, zero_div]
    · have e2 : (structCompute ignoreIndex ε logSoftmax rexp C scores target
          (some m) none false false).map (fun r => r.2.1)
          = some (matSum (matHadamard (label_smoothed_nll_loss2 C
              (scores.map (fun row => row.map logSoftmax)) target ε
              ignoreIndex).2 m) / max 1 (matSum m)) := rfl
      rw [e2, matSum_hadamard_zero _ m hz, zero_div]
  · refine ⟨rfl, le_max_left 1 _, ?_, rfl, rfl⟩
    intro hz
    constructor
    · have e1 : (structCompute ignoreIndex ε logSoftmax rexp C scores target
          (some m) (some w) false false).map (fun r => r.1)
          = some (matSum (matHadamard (matHadamard (label_smoothed_nll_loss2
              C (scores.map (fun row => row.map logSoftmax)) target ε
              ignoreIndex).1 w) m) / max 1 (matSum m)) := rfl
      rw [e1, matSum_hadamard_zero _ m hz, zero_div]
    · have e2 : (structCompute ignoreIndex ε logSoftmax rexp C scores target
          (some m) (some w) false false).map (fun r => r.2.1)
          = some (matSum (matHadamard (matHadamard (label_smoothed_nll_loss2
              C (scores.map (fun row => row.map logSoftmax)) target ε
              ignoreIndex).2 w) m) / max 1 (matSum m)) := rfl
      rw [e2, matSum_hadamard_zero _ m hz, zero_div]

theorem C8_witness :
    (structCompute none (1/4) id id 2 [[[1, 2]], [[3, 4]]] [[0], [1]]
        (some [[0], [0]]) none false false).map (fun r => r.2.2.sample_size)
      = some (max 1 (matSum [[0], [0]]))
    ∧ (1 : ℚ) ≤ max 1 (matSum [[0], [0]])
    ∧ ((∀ row ∈ ([[0], [0]] : Mat), ∀ x ∈ row, x = (0 : ℚ)) →
        (structCompute none (1/4) id id 2 [[[1, 2]], [[3, 4]]] [[0], [1]]
            (some [[0], [0]]) none false false).map (fun r => r.1) = some 0
        ∧ (structCompute none (1/4) id id 2 [[[1, 2]], [[3, 4]]] [[0], [1]]
            (some [[0], [0]]) none false false).map (fun r => r.2.1)
          = some 0)
    ∧ (Coord2SeqCrossEntropyLoss.forward none (1/4) id id 2
        [[[1, 2]], [[3, 4]]] [[0], [1]] (some [[0], [0]]) none
        none).2.sample_size = matSum [[0], [0]]
    ∧ (RDMCrossEntropyLoss.forward none (1/4) id id 2 [[[1, 2]], [[3, 4]]]
        [[0], [1]] (some [[0], [0]]) none false false).map
        (fun p => p.2.sample_size) = some (matSum [[0], [0]]) :=
  C8_structaardm_max_one_guard none (1/4) id id 2 [[[1, 2]], [[3, 4]]]
    [[0], [1]] [[0], [0]] none none

theorem bind_some_eq {α β : Type} (a : α) (f : α → Option β) :
    ((some a : Option α) >>= f) = f a := rfl

theorem mapM_eq_map_of_all_some {α β : Type} (g : α → Option β) (f : α → β)
    (l : List α) (h : ∀ a ∈ l, g a = some (f a)) :
    l.mapM g = some (l.map f) := by
  induction l with
  | nil => rfl
  | cons a as ih =>
    rw [List.mapM_cons, h a (by simp), ih (fun x hx => h x (by simp [hx]))]
    rfl

theorem getLast?_map_of_ne_nil {α β : Type} (f : α → β) (l : List α)
    (h : l ≠ []) : (l.map f).getLast? = some (f (l.getLast h)) := by
  induction l with
  | nil => exact absurd rfl h
  | cons a as ih =>
    cases as with
    | nil => rfl
    | cons b bs =>
      rw [List.map_cons, List.map_cons, List.getLast?_cons_cons,
        ← List.map_cons, ih (by simp), List.getLast_cons_cons]

/-- C9: on dict inputs, `StructAARDMCrossEntropyLoss.forward` returns the
arithmetic mean of the per-key losses, logs the mean of the per-key nll
losses as `nll_loss`, and copies `sample_size`, `fullseq_loss`,
`fullseq_nll_loss` and `ppl` from the last iterated key instead of
aggregating them. -/
theorem C9_struct_dict_aggregation (ignoreIndex : Option ℤ) (ε : ℚ)
    (logSoftmax : Vec → Vec) (rexp : ℚ → ℚ) (C : ℕ) (keys : List String)
    (scoresD : String → List (List Vec)) (targetD : String → List (List ℤ))
    (lmaskD : String → Option Mat) (weightsD : String → Option Mat)
    (ccl wtt : Bool) (f : String → ℚ × ℚ × RDMLog) (hne : keys ≠ [])
    (hall : ∀ k ∈ keys, structCompute ignoreIndex ε logSoftmax rexp C
      (scoresD k) (targetD k) (lmaskD k) (weightsD k) ccl wtt = some (f k)) :
    StructAARDMCrossEntropyLoss.forward_dict ignoreIndex ε logSoftmax rexp C
      keys scoresD targetD lmaskD weightsD ccl wtt
      = some (((keys.map (fun k => (f k).1)).sum) / (keys.length : ℚ),
        { sample_size := (f (keys.getLast hne)).2.2.sample_size,
          nll_loss :=
            ((keys.map (fun k => (f k).2.1)).sum) / (keys.length : ℚ),
          fullseq_loss := (f (keys.getLast hne)).2.2.fullseq_loss,
          fullseq_nll_loss := (f (keys.getLast hne)).2.2.fullseq_nll_loss,
          ppl := (f (keys.getLast hne)).2.2.ppl }) := by
  rcases keys with _ | ⟨k0, ks⟩
  · exact absurd rfl hne
  simp only [StructAARDMCrossEntropyLoss.forward_dict]
  rw [mapM_eq_map_of_all_some _ f _ hall, bind_some_eq, List.map_map,
    List.map_map, List.map_map,
    getLast?_map_of_ne_nil ((fun r => (r.2.2 : RDMLog)) ∘ f) (k0 :: ks)
      (by simp), bind_some_eq]
  simp [Function.comp_def]

theorem C9_witness :
    (["aa", "bb"] : List String) ≠ []
    ∧ StructAARDMCrossEntropyLoss.forward_dict none 0 id id 2 ["aa", "bb"]
        (fun _ => [[[1, 2]]]) (fun _ => [[0]]) (fun _ => none)
        (fun _ => none) false false
      = some (([(-1 : ℚ), -1]).sum
            / ((["aa", "bb"] : List String).length : ℚ),
          { sample_size := 1,
            nll_loss := ([(-1 : ℚ), -1]).sum
              / ((["aa", "bb"] : List String).length : ℚ),
            fullseq_loss := -1, fullseq_nll_loss := -1, ppl := -1 }) :=
  ⟨by simp,
   C9_struct_dict_aggregation none 0 id id 2 ["aa", "bb"]
     (fun _ => [[[1, 2]]]) (fun _ => [[0]]) (fun _ => none) (fun _ => none)
     false false
     (fun _ => (-1, -1,
       { nll_loss := -1, ppl := -1, fullseq_loss := -1,
         fullseq_nll_loss := -1, bsz := 1, sample_size := 1,
         sample_fraction := 1, nonpad_fraction := 1,
         weight_diff_loss := -1, constant_diff_loss := none,
         weight_diff_t1_loss := none, weight_diff_t2_loss := none }))
     (by simp)
     (fun k _ => by
       norm_num [structCompute, rdmT1T2_false, rdmConstant_false,
         label_smoothed_nll_loss2, nllTerms, smoothTerms, maskedAt,
         gatherNeg, epsI, matSum, matHadamard, nonpadSampleSize, matNumel,
         countNe, bind_some_eq])⟩

/-- A parsed PDB atom: 3D coordinates (`get_coord`) and the b-factor
column (`get_bfactor`). -/
structure Atom where
  coord : ℚ × ℚ × ℚ
  bfactor : ℚ
deriving DecidableEq

/-- A parsed PDB residue: name (`get_resname`), sequence number
(`residue.id[1]`), and its atoms keyed by atom name. -/
structure Residue where
  resname : String
  resnum : ℤ
  atoms : List (String × Atom)
deriving DecidableEq

/-- `residue[name]`: the dictionary lookup that raises `KeyError` when the
atom is absent, modelled as `Option`. -/
def Residue.getAtom (r : Residue) (name : String) : Option Atom :=
  (r.atoms.find? (fun p => p.1 == name)).map (fun p => p.2)

/-- A parsed PDB chain: its id and residues in file order. -/
structure Chain where
  id : String
  residues : List Residue
deriving DecidableEq

/-- A parsed PDB model: its chains in file order. -/
structure PDBModel where
  chains : List Chain
deriving DecidableEq

/-- A parsed PDB structure: its models in file order. -/
structure PDBStructure where
  models : List PDBModel
deriving DecidableEq

/-- One record of the list returned by `get_alpha_carbon_info`. -/
structure CARecord where
  chain : String
  resname : String
  resnum : ℤ
  ca_coord : ℚ × ℚ × ℚ
  plddt : ℚ
deriving DecidableEq

/-- The record built for one residue in the loop body of
`get_alpha_carbon_info`. -/
def caRecordOf (ch : Chain) (r : Residue) (ca : Atom) : CARecord :=
  { chain := ch.id, resname := r.resname, resnum := r.resnum,
    ca_coord := ca.coord, plddt := ca.bfactor }

/-- The innermost loop body of `get_alpha_carbon_info`: try
`residue['CA']`; on success append the record, on `KeyError` continue. -/
def resStep (ch : Chain) (acc : List CARecord) (r : Residue) :
    List CARecord :=
  match r.getAtom "CA" with
  | some ca => acc ++ [caRecordOf ch r ca]
  | none => acc

/-- The `for residue in chain` loop of `get_alpha_carbon_info`. -/
def chainStep (acc : List CARecord) (ch : Chain) : List CARecord :=
  ch.residues.foldl (resStep ch) acc

/-- The `for chain in model` loop of `get_alpha_carbon_info`. -/
def modelStep (acc : List CARecord) (m : PDBModel) : List CARecord :=
  m.chains.foldl chainStep acc

/-- The full traversal of `get_alpha_carbon_info` over an already-parsed
structure: iterate all models, chains and residues, appending one record
per residue whose `residue['CA']` lookup succeeds. -/
def collect_alpha_carbons (s : PDBStructure) : List CARecord :=
  s.models.foldl modelStep []

/-- The file system visible to `PDBParser.get_structure`: an association
of file paths to parsed structures. -/
abbrev PDBWorld := List (String × PDBStructure)

/-- `parser.get_structure("protein", pdb_file)`: a read-only lookup; the
world is returned unchanged.  `none` models a missing or unparsable
file. -/
def get_structure (w : PDBWorld) (pdb_file : String) :
    PDBWorld × Option PDBStructure :=
  (w, (w.find? (fun p => p.1 == pdb_file)).map (fun p => p.2))

/-- `get_alpha_carbon_info(pdb_file)` from `debug.py`: parse the file,
then collect the per-residue CA records.  The world state is threaded
explicitly so that the absence of writes is visible in the result. -/
def get_alpha_carbon_info (w : PDBWorld) (pdb_file : String) :
    PDBWorld × Option (List CARecord) :=
  let ps := get_structure w pdb_file
  (ps.1, ps.2.map collect_alpha_carbons)

theorem foldl_filterMapAppend {α β γ : Type} (g : α → Option γ)
    (h : α → γ → β) (l : List α) (acc : List β) :
    l.foldl (fun acc r => match g r with
      | some c => acc ++ [h r c]
      | none => acc) acc
      = acc ++ l.filterMap (fun r => (g r).map (h r)) := by
  induction l generalizing acc with
  | nil => simp
  | cons a as ih =>
    simp only [List.foldl_cons]
    cases hga : g a
    · simp [hga, ih, List.filterMap_cons]
    · simp [hga, ih, List.filterMap_cons]

theorem foldl_append_flatten {α β : Type} (f : α → List β) (l : List α)
    (acc : List β) (F : List β → α → List β)
    (hF : ∀ acc x, F acc x = acc ++ f x) :
    l.foldl F acc = acc ++ (l.map f).flatten := by
  induction l generalizing acc with
  | nil => simp
  | cons a as ih =>
    rw [List.foldl_cons, hF, ih, List.map_cons, List.flatten_cons,
      List.append_assoc]

theorem length_filterMap_eq_count {α β : Type} (g : α → Option β)
    (l : List α) :
    (l.filterMap g).length = (l.filter (fun r => (g r).isSome)).length := by
  induction l with
  | nil => rfl
  | cons a as ih =>
    cases hga : g a
    · simp [List.filterMap_cons, hga, ih]
    · simp [List.filterMap_cons, hga, ih]

/-- C3: `get_alpha_carbon_info` yields exactly one record per residue with
a `'CA'` atom — carrying the chain id, residue name, residue number, CA
coordinates, and the CA b-factor as `plddt` — in traversal order, and a
residue without a `'CA'` atom contributes nothing (the `KeyError` is
caught, never propagated: the collection is total).  The record count is
the count of CA-bearing residues. -/
theorem resStep_fold (ch : Chain) (l : List Residue)
    (acc : List CARecord) :
    l.foldl (resStep ch) acc
      = acc ++ l.filterMap (fun r => (r.getAtom "CA").map (caRecordOf ch r)) := by
  induction l generalizing acc with
  | nil => simp
  | cons a as ih =>
    rw [List.foldl_cons, ih]
    cases ha : a.getAtom "CA"
    · simp [resStep, ha, List.filterMap_cons]
    · simp [resStep, ha, List.filterMap_cons]

theorem chainStep_fold (l : List Chain) (acc : List CARecord) :
    l.foldl chainStep acc
      = acc ++ (l.map (fun ch =>
          ch.residues.filterMap
            (fun r => (r.getAtom "CA").map (caRecordOf ch r)))).flatten := by
  induction l generalizing acc with
  | nil => simp
  | cons a as ih =>
    rw [List.foldl_cons, ih]
    simp only [chainStep]
    rw [resStep_fold]
    simp [List.append_assoc]

theorem modelStep_fold (l : List PDBModel) (acc : List CARecord) :
    l.foldl modelStep acc
      = acc ++ (l.map (fun m =>
          (m.chains.map (fun ch =>
            ch.residues.filterMap (fun r =>
              (r.getAtom "CA").map (caRecordOf ch r)))).flatten)).flatten := by
  induction l generalizing acc with
  | nil => simp
  | cons a as ih =>
    rw [List.foldl_cons, ih]
    simp only [modelStep]
    rw [chainStep_fold]
    simp [List.append_assoc]

theorem isSome_map_opt {α β : Type} (f : α → β) (o : Option α) :
    (o.map f).isSome = o.isSome := by cases o <;> rfl

/-- C3: `get_alpha_carbon_info` yields exactly one record per residue with
a `'CA'` atom — `caRecordOf` carries the chain id, residue name, residue
number, CA coordinates, and the CA b-factor as `plddt` — in traversal
order, and a residue without a `'CA'` atom contributes nothing (the
`KeyError` is caught, never propagated: the collection is total).  The
record count is the count of CA-bearing residues. -/
theorem C3_alpha_carbon_records (s : PDBStructure) :
    collect_alpha_carbons s
      = (s.models.map (fun m =>
          (m.chains.map (fun ch =>
            ch.residues.filterMap (fun r =>
              (r.getAtom "CA").map (caRecordOf ch r)))).flatten)).flatten
    ∧ (collect_alpha_carbons s).length
      = (s.models.map (fun m =>
          (m.chains.map (fun ch =>
            (ch.residues.filter
              (fun r => (r.getAtom "CA").isSome)).length)).sum)).sum := by
  have h1 : collect_alpha_carbons s
      = (s.models.map (fun m =>
          (m.chains.map (fun ch =>
            ch.residues.filterMap (fun r =>
              (r.getAtom "CA").map (caRecordOf ch r)))).flatten)).flatten := by
    unfold collect_alpha_carbons
    rw [modelStep_fold]
    exact List.nil_append _
  refine ⟨h1, ?_⟩
  rw [h1]
  simp only [List.length_flatten, List.map_map, Function.comp_def,
    length_filterMap_eq_count, isSome_map_opt]

/-- C6: `get_alpha_carbon_info` is a read-only wrapper: the world (file
system) it returns is the one it received, unchanged, and its only output
is the record list computed purely from the structure that
`parser.get_structure` read. -/
theorem C6_get_alpha_carbon_info_read_only (w : PDBWorld)
    (pdb_file : String) :
    (get_alpha_carbon_info w pdb_file).1 = w
    ∧ (get_alpha_carbon_info w pdb_file).2
      = (get_structure w pdb_file).2.map collect_alpha_carbons :=
  ⟨rfl, rfl⟩
